import Mathlib

/-! The process runner and command builder of `arduino_cli_wrapper.c`.

A shallow embedding of `src/main/C/arduino_cli_wrapper.c`.

* A `char` array (automatic, static or heap allocated) is a `Block`: the list of
  its bytes, terminator and whatever lies behind it included.  The C string a
  pointer to the block designates is `cstr`: the bytes before the first NUL.
* The operating system is a record `OS`: what `popen` answers for a command
  line, and the indeterminate bytes found in fresh stack and heap memory.
* `run_process` threads a `LoopState` through its `while` loop and records the
  library calls it makes in a trace.  Reading or writing outside a block is
  undefined behaviour in C and is the fault `Fault.bounds` here.
* `calloc`, `realloc` and `strdup` are taken to succeed, as the source takes
  them to (it never tests their result), reads from an open pipe are taken not
  to fail, and `size_t` arithmetic is taken not to wrap.
-/

namespace ArduinoCli

/-! ## Bytes, blocks and C strings -/

/-- One `char`. -/
abbrev Byte := UInt8

/-- The bytes of a `char` array. -/
abbrev Block := List Byte

/-- The UTF-8 bytes of a piece of text, without terminator. -/
def bytes (s : String) : List Byte :=
  s.toList.flatMap String.utf8EncodeChar

/-- A C string literal: its bytes followed by the terminating NUL. -/
def lit (s : String) : Block :=
  bytes s ++ [0]

/-- The C string held in a block: the bytes before the first NUL. -/
def cstr (b : Block) : List Byte :=
  b.takeWhile (fun c => c != 0)

/-- The result of `strlen(b)`; `none` when the block holds no terminator, where
the C function reads past the end of the array. -/
def strlen (b : Block) : Option Nat :=
  if (0 : Byte) ∈ b then some (cstr b).length else none

/-- The block `calloc(n, size)` returns: `n * size` zero bytes. -/
def calloc (n size : Nat) : Block :=
  List.replicate (n * size) 0

/-- The block `realloc(b, n)` returns: `n` bytes, those of `b` as far as they
go, and behind them whatever the heap held (`heap i` at offset `i`). -/
def realloc (heap : Nat → Byte) (b : Block) (n : Nat) : Block :=
  (List.range' 0 n).map (fun i => b.getD i (heap i))

/-- The block `strcat(dst, src)` leaves in `dst`: the string of `src` and a
terminator written over the terminator of `dst`.  `none` when either block
holds no terminator or `dst` has no room for the result. -/
def strcat (dst src : Block) : Option Block :=
  if (0 : Byte) ∈ dst ∧ (0 : Byte) ∈ src ∧
      (cstr dst).length + (cstr src).length + 1 ≤ dst.length then
    some (cstr dst ++ cstr src ++ [0] ++
      dst.drop ((cstr dst).length + (cstr src).length + 1))
  else none

/-- The block `strdup(s)` returns: the string of `s` and its terminator. -/
def strdup (s : Block) : Block :=
  cstr s ++ [0]

/-- An automatic `char` array of `n` bytes before anything is stored in it. -/
def stackArray (stack : Nat → Byte) (n : Nat) : Block :=
  (List.range' 0 n).map stack

/-! ## The operating system -/

/-- An open pipe to a child process: the `FILE*` handle and the bytes the child
writes to its standard output before closing it. -/
structure Pipe where
  handle : Nat
  content : List Byte
  deriving DecidableEq, Repr

/-- What the process runner sees of the operating system. `popen c` is `none`
when `popen` returns `NULL` for the command line `c`. -/
structure OS where
  popen : List Byte → Option Pipe
  stack : Nat → Byte
  heap : Nat → Byte

/-- A library call made by `run_process`. `popen` carries the command line and
the handle returned, `fgets` the handle read and the bytes it stored (`none`
when it returned `NULL`), `realloc` the size requested. -/
inductive Event where
  | popen (cmd : List Byte) (handle : Option Nat)
  | strdup (s : List Byte)
  | calloc (n size : Nat)
  | fgets (handle : Nat) (got : Option (List Byte))
  | realloc (size : Nat)
  | pclose (handle : Nat)
  deriving DecidableEq, Repr

/-- Undefined behaviour or non-termination of the model. -/
inductive Fault where
  | bounds
  | fuel
  deriving DecidableEq, Repr

/-- The calls made, in order, and the value returned. -/
structure Outcome where
  trace : List Event
  value : Block
  deriving DecidableEq, Repr

/-! ## `fgets` -/

/-- The character loop of `fgets`: reads at most `room` bytes from the stream and
stops behind a newline or at end of file. Returns the bytes read and the rest of
the stream. -/
def fgets_read : Nat → List Byte → List Byte × List Byte
  | 0, s => ([], s)
  | _ + 1, [] => ([], [])
  | k + 1, c :: s =>
    if c = 10 then ([c], s)
    else (c :: (fgets_read k s).1, (fgets_read k s).2)

/-- What a successful `fgets` leaves behind. -/
structure Fgets where
  got : List Byte
  buffer : Block
  stream : List Byte
  deriving DecidableEq, Repr

/-- The call `fgets(buffer, size, stream)` for `size ≥ 2`: `none` (`NULL`) at end
of file, otherwise the bytes read are stored in the buffer with a terminator
behind them and the bytes of the buffer further on are left as they were. -/
def fgets (buffer : Block) (size : Nat) (stream : List Byte) : Option Fgets :=
  match stream with
  | [] => none
  | c :: s =>
    let r := fgets_read (size - 1) (c :: s)
    some { got := r.1
           buffer := r.1 ++ [0] ++ buffer.drop (r.1.length + 1)
           stream := r.2 }

/-! ## `run_process` -/

/-- The variables of `run_process` inside its loop: the unread rest of the
pipe, `buffer`, the block `result` points to, and the calls made so far. -/
structure LoopState where
  stream : List Byte
  buffer : Block
  result : Block
  trace : List Event
  deriving DecidableEq, Repr

/-- The outcome of one evaluation of the loop condition and, when it holds, of
the loop body. -/
inductive Iter where
  | exit (st : LoopState)
  | next (st : LoopState)
  | fault
  deriving DecidableEq, Repr

/-- One turn of `while (fgets(buffer, sizeof(buffer), pipe)) { result =
realloc(result, strlen(result) + strlen(buffer) + 1); strcat(result, buffer); }`. -/
def loopIter (heap : Nat → Byte) (h : Nat) (st : LoopState) : Iter :=
  match fgets st.buffer 2048 st.stream with
  | none => .exit { st with trace := st.trace ++ [.fgets h none] }
  | some f =>
    match strlen st.result, strlen f.buffer with
    | some a, some b =>
      match strcat (realloc heap st.result (a + b + 1)) f.buffer with
      | some r =>
        .next { stream := f.stream
                buffer := f.buffer
                result := r
                trace := st.trace ++ [.fgets h (some f.got), .realloc (a + b + 1)] }
      | none => .fault
    | _, _ => .fault

/-- The `while` loop, run for at most `fuel` evaluations of its condition. -/
def readLoop (heap : Nat → Byte) (h : Nat) : Nat → LoopState → Except Fault LoopState
  | 0, _ => .error .fuel
  | fuel + 1, st =>
    match loopIter heap h st with
    | .exit st' => .ok st'
    | .next st' => readLoop heap h fuel st'
    | .fault => .error .bounds

/-- The state in which the loop is entered: nothing read, `buffer` not yet
written, `result = calloc(1, 1)`. -/
def initState (os : OS) (cmd : Block) (p : Pipe) : LoopState :=
  { stream := p.content
    buffer := stackArray os.stack 2048
    result := calloc 1 1
    trace := [.popen (cstr cmd) (some p.handle), .calloc 1 1] }

/-- The state after `k` turns of the loop body, when the loop makes that many. -/
def stateAfter (heap : Nat → Byte) (h : Nat) : Nat → LoopState → Option LoopState
  | 0, st => some st
  | k + 1, st =>
    match loopIter heap h st with
    | .next st' => stateAfter heap h k st'
    | _ => none

/-- The function `run_process(cmd)`. Every turn of the loop consumes a byte of
the pipe, so one turn more than the pipe holds bytes is fuel enough. -/
def run_process (os : OS) (cmd : Block) : Except Fault Outcome :=
  match os.popen (cstr cmd) with
  | none =>
    .ok { trace := [.popen (cstr cmd) none, .strdup (cstr (lit "ERROR: cannot run command"))]
          value := strdup (lit "ERROR: cannot run command") }
  | some p =>
    match readLoop os.heap p.handle (p.content.length + 1) (initState os cmd p) with
    | .ok st => .ok { trace := st.trace ++ [.pclose p.handle], value := st.result }
    | .error e => .error e

/-! ## The entry points -/

/-- The expansion of a format string in which `%s` is the only directive: each
`%s` is replaced by the string of the next argument. -/
def vformat : List Byte → List Block → List Byte
  | [], _ => []
  | [c], _ => [c]
  | c :: d :: rest, args =>
    if c = 37 ∧ d = 115 then
      match args with
      | a :: args' => cstr a ++ vformat rest args'
      | [] => vformat rest []
    else c :: vformat (d :: rest) args

/-- The call `snprintf(dst, size, fmt, ...)`: the block left in `dst` and the
value returned, the length of the whole expansion. At most `size - 1` bytes of
the expansion are stored, with a terminator behind them. -/
def snprintf (dst : Block) (size : Nat) (fmt : Block) (args : List Block) : Block × Nat :=
  let full := vformat (cstr fmt) args
  if size = 0 then (dst, full.length)
  else (full.take (size - 1) ++ [0] ++ dst.drop ((full.take (size - 1)).length + 1),
        full.length)

/-- A Java string is held as its bytes in modified UTF-8; `GetStringUTFChars`
hands out a block with these bytes and a terminator. -/
def GetStringUTFChars (j : List Byte) : Block :=
  j ++ [0]

/-- The Java string `NewStringUTF` makes of a C string. -/
def NewStringUTF (b : Block) : List Byte :=
  cstr b

/-- The array `cmd` of the `compile` entry point after its `snprintf`. -/
def compile_cmd (os : OS) (jSketch jFqbn : List Byte) : Block :=
  (snprintf (stackArray os.stack 1024) 1024 (lit "arduino-cli compile --fqbn %s %s")
    [GetStringUTFChars jFqbn, GetStringUTFChars jSketch]).1

/-- The array `cmd` of the `upload` entry point after its `snprintf`. -/
def upload_cmd (os : OS) (jSketch jFqbn jPort : List Byte) : Block :=
  (snprintf (stackArray os.stack 1024) 1024 (lit "arduino-cli upload -p %s --fqbn %s %s")
    [GetStringUTFChars jPort, GetStringUTFChars jFqbn, GetStringUTFChars jSketch]).1

/-- The entry point `Java_com_anode_arduino_jni_ArduinoCLINative_compile`: the
calls made and the Java string returned. -/
def Java_com_anode_arduino_jni_ArduinoCLINative_compile (os : OS)
    (jSketch jFqbn : List Byte) : Except Fault Outcome :=
  match run_process os (compile_cmd os jSketch jFqbn) with
  | .ok o => .ok { o with value := NewStringUTF o.value }
  | .error e => .error e

/-- The entry point `Java_com_anode_arduino_jni_ArduinoCLINative_upload`. -/
def Java_com_anode_arduino_jni_ArduinoCLINative_upload (os : OS)
    (jSketch jFqbn jPort : List Byte) : Except Fault Outcome :=
  match run_process os (upload_cmd os jSketch jFqbn jPort) with
  | .ok o => .ok { o with value := NewStringUTF o.value }
  | .error e => .error e

/-- The entry point `Java_com_anode_arduino_jni_ArduinoCLINative_exec`. -/
def Java_com_anode_arduino_jni_ArduinoCLINative_exec (os : OS)
    (jCmd : List Byte) : Except Fault Outcome :=
  match run_process os (GetStringUTFChars jCmd) with
  | .ok o => .ok { o with value := NewStringUTF o.value }
  | .error e => .error e

/-! ## Vocabulary of the statements -/

/-- The whole expansion of the format of the `compile` entry point, which
`snprintf` computes and stores as far as the array has room. -/
def compile_full (jSketch jFqbn : List Byte) : List Byte :=
  vformat (cstr (lit "arduino-cli compile --fqbn %s %s"))
    [GetStringUTFChars jFqbn, GetStringUTFChars jSketch]

/-- The whole expansion of the format of the `upload` entry point. -/
def upload_full (jSketch jFqbn jPort : List Byte) : List Byte :=
  vformat (cstr (lit "arduino-cli upload -p %s --fqbn %s %s"))
    [GetStringUTFChars jPort, GetStringUTFChars jFqbn, GetStringUTFChars jSketch]

/-- The bytes stored by the successful `fgets` calls of a trace, call by call. -/
def delivered (tr : List Event) : List (List Byte) :=
  tr.filterMap fun e =>
    match e with
    | .fgets _ (some g) => some g
    | _ => none

/-- The event is a call the loop makes while it reads handle `h`. -/
def Event.isRead (h : Nat) : Event → Bool
  | .fgets h' (some _) => h' == h
  | .realloc _ => true
  | _ => false

/-- The event opens a pipe. -/
def Event.isPopen : Event → Bool
  | .popen _ _ => true
  | _ => false

/-- The event closes a pipe. -/
def Event.isPclose : Event → Bool
  | .pclose _ => true
  | _ => false

/-- The event reads from a pipe, successfully or not. -/
def Event.isFgets : Event → Bool
  | .fgets _ _ => true
  | _ => false

/-- The event allocates the output buffer. -/
def Event.isCalloc : Event → Bool
  | .calloc _ _ => true
  | _ => false

/-- The text holds no control character: every byte is at least a space and is
not DEL. -/
def Printable (s : List Byte) : Prop :=
  ∀ b ∈ s, 32 ≤ b.toNat ∧ b.toNat ≠ 127

instance (s : List Byte) : Decidable (Printable s) :=
  inferInstanceAs (Decidable (∀ b ∈ s, 32 ≤ b.toNat ∧ b.toNat ≠ 127))

/-- An operating system in which `popen` gives the same answer for every command
line, a stack that holds the bytes 1, 2, ..., 255, 0, 1, ... and a heap full of
the byte 170. -/
def osWith (answer : Option Pipe) : OS :=
  { popen := fun _ => answer
    stack := fun i => UInt8.ofNat (i + 1)
    heap := fun _ => 170 }

/-! ## C strings -/

theorem cstr_cons (c : Byte) (b : Block) :
    cstr (c :: b) = if c = 0 then [] else c :: cstr b := by
  by_cases h : c = 0 <;> simp [cstr, List.takeWhile_cons, h]

theorem nul_not_mem_cstr (b : Block) : (0 : Byte) ∉ cstr b := by
  induction b with
  | nil => simp [cstr]
  | cons c b ih =>
    rw [cstr_cons]
    by_cases h : c = 0
    · simp [h]
    · simp only [h, if_false, List.mem_cons, not_or]
      exact ⟨fun e => h e.symm, ih⟩

theorem cstr_append_nul (g t : List Byte) : cstr (g ++ 0 :: t) = cstr g := by
  induction g with
  | nil => simp [cstr]
  | cons c g ih =>
    rw [List.cons_append, cstr_cons, cstr_cons, ih]

theorem cstr_of_nul_free {s : List Byte} (h : (0 : Byte) ∉ s) : cstr s = s := by
  induction s with
  | nil => rfl
  | cons c s ih =>
    simp only [List.mem_cons, not_or] at h
    rw [cstr_cons, if_neg (fun e => h.1 e.symm), ih h.2]

theorem cstr_terminated {s : List Byte} (h : (0 : Byte) ∉ s) (t : List Byte) :
    cstr (s ++ 0 :: t) = s := by
  rw [cstr_append_nul, cstr_of_nul_free h]

theorem strlen_terminated (g t : List Byte) :
    strlen (g ++ 0 :: t) = some (cstr g).length := by
  simp [strlen, cstr_append_nul]

/-! ## The heap -/

theorem realloc_length (heap : Nat → Byte) (b : Block) (n : Nat) :
    (realloc heap b n).length = n := by
  simp [realloc]

theorem realloc_take (heap : Nat → Byte) (b : Block) (n : Nat) (h : b.length ≤ n) :
    (realloc heap b n).take b.length = b := by
  apply List.ext_getElem
  · simp [realloc, h]
  · intro i h1 h2
    simp only [List.length_take, realloc_length] at h1
    have hi : i < b.length := h2
    simp [realloc, List.getElem_take, List.getElem?_eq_getElem hi]

/-- Growing a block keeps its bytes and adds as many as asked for. -/
theorem realloc_grow (heap : Nat → Byte) (b : Block) (n : Nat) (h : b.length ≤ n) :
    ∃ pad : List Byte, realloc heap b n = b ++ pad ∧ pad.length = n - b.length := by
  refine ⟨(realloc heap b n).drop b.length, ?_, by simp [realloc_length]⟩
  conv_lhs => rw [← List.take_append_drop b.length (realloc heap b n)]
  rw [realloc_take heap b n h]

theorem strcat_terminated {acc : List Byte} (hacc : (0 : Byte) ∉ acc) (pad g t : List Byte)
    (hroom : (cstr g).length ≤ pad.length) :
    strcat (acc ++ 0 :: pad) (g ++ 0 :: t) =
      some (acc ++ cstr g ++ [0] ++ pad.drop (cstr g).length) := by
  have h1 : cstr (acc ++ 0 :: pad) = acc := cstr_terminated hacc pad
  have h2 : cstr (g ++ 0 :: t) = cstr g := cstr_append_nul g t
  have hd : List.drop (acc.length + (cstr g).length + 1) (acc ++ 0 :: pad) =
      pad.drop (cstr g).length := by
    rw [List.drop_append_eq_append_drop]
    have : acc.length + (cstr g).length + 1 - acc.length = (cstr g).length + 1 := by omega
    rw [this, List.drop_of_length_le (by omega)]
    simp
  unfold strcat
  rw [h1, h2, hd, if_pos]
  refine ⟨by simp, by simp, ?_⟩
  simp only [List.length_append, List.length_cons]
  omega

/-! ## `fgets` -/

theorem fgets_read_append (k : Nat) (s : List Byte) :
    (fgets_read k s).1 ++ (fgets_read k s).2 = s := by
  induction k generalizing s with
  | zero => simp [fgets_read]
  | succ k ih =>
    cases s with
    | nil => simp [fgets_read]
    | cons c s =>
      by_cases h : c = 10
      · simp [fgets_read, h]
      · simp [fgets_read, h, ih s]

theorem fgets_read_length_le (k : Nat) (s : List Byte) :
    (fgets_read k s).1.length ≤ k := by
  induction k generalizing s with
  | zero => simp [fgets_read]
  | succ k ih =>
    cases s with
    | nil => simp [fgets_read]
    | cons c s =>
      by_cases h : c = 10
      · simp [fgets_read, h]
      · simpa [fgets_read, h] using ih s

theorem fgets_read_ne_nil (k : Nat) (c : Byte) (s : List Byte) :
    (fgets_read (k + 1) (c :: s)).1 ≠ [] := by
  by_cases h : c = 10 <;> simp [fgets_read, h]

theorem fgets_read_rest_length (k : Nat) (c : Byte) (s : List Byte) :
    (fgets_read (k + 1) (c :: s)).2.length < (c :: s).length := by
  have h1 := congrArg List.length (fgets_read_append (k + 1) (c :: s))
  have h2 := List.length_pos.mpr (fgets_read_ne_nil k c s)
  rw [List.length_append] at h1
  omega


/-! ## The loop of `run_process` -/

theorem loopIter_eof (heap : Nat → Byte) (h : Nat) (st : LoopState) (hs : st.stream = []) :
    loopIter heap h st = .exit { st with trace := st.trace ++ [.fgets h none] } := by
  simp [loopIter, fgets, hs]

/-- One turn of the loop on a pipe that is not at end of file and a terminated
accumulator: the string of the chunk read is appended, nothing else changes. -/
theorem loopIter_read (heap : Nat → Byte) (h : Nat) (st : LoopState) (c : Byte)
    (s acc : List Byte) (hs : st.stream = c :: s) (hr : st.result = acc ++ [0])
    (hacc : (0 : Byte) ∉ acc) :
    loopIter heap h st = .next
      { stream := (fgets_read 2047 (c :: s)).2
        buffer := (fgets_read 2047 (c :: s)).1 ++ [0] ++
          st.buffer.drop ((fgets_read 2047 (c :: s)).1.length + 1)
        result := acc ++ cstr (fgets_read 2047 (c :: s)).1 ++ [0]
        trace := st.trace ++ [.fgets h (some (fgets_read 2047 (c :: s)).1),
          .realloc (acc.length + (cstr (fgets_read 2047 (c :: s)).1).length + 1)] } := by
  generalize hg : (fgets_read 2047 (c :: s)).1 = got
  have hlen1 : strlen (acc ++ [0]) = some acc.length := by
    rw [strlen_terminated, cstr_of_nul_free hacc]
  have hlen2 : ∀ t, strlen (got ++ [0] ++ t) = some (cstr got).length := by
    intro t
    rw [List.append_assoc, List.singleton_append, strlen_terminated]
  obtain ⟨pad, hpad, hpadlen⟩ := realloc_grow heap (acc ++ [0])
    (acc.length + (cstr got).length + 1) (by simp)
  have hpadlen' : pad.length = (cstr got).length := by
    rw [hpadlen]; simp
  have hcat : ∀ t, strcat (realloc heap (acc ++ [0]) (acc.length + (cstr got).length + 1))
      (got ++ [0] ++ t) = some (acc ++ cstr got ++ [0]) := by
    intro t
    rw [hpad, List.append_assoc acc, List.singleton_append, List.append_assoc got,
      List.singleton_append, strcat_terminated hacc pad got t (by omega),
      List.drop_of_length_le (by omega)]
    simp
  simp only [loopIter, fgets, hs, hr, Nat.add_one_sub_one, hg, hlen1, hlen2, hcat]

/-- The loop on a terminated accumulator `acc`: with more fuel than the pipe
holds bytes it ends at end of file, the accumulator is `acc` followed by the
strings of the chunks read, and the calls made are the reads, the reallocations
and the last `fgets`, which returns `NULL`. -/
theorem readLoop_spec (heap : Nat → Byte) (h : Nat) :
    ∀ (fuel : Nat) (st : LoopState) (acc : List Byte), st.result = acc ++ [0] →
      (0 : Byte) ∉ acc → st.stream.length < fuel →
      ∃ (evs : List Event) (buffer : Block),
        readLoop heap h fuel st = .ok
          { stream := []
            buffer := buffer
            result := acc ++ ((delivered evs).map cstr).flatten ++ [0]
            trace := st.trace ++ evs ++ [.fgets h none] } ∧
        (delivered evs).flatten = st.stream ∧
        (∀ g ∈ delivered evs, g ≠ [] ∧ g.length ≤ 2047) ∧
        (∀ e ∈ evs, e.isRead h = true) := by
  intro fuel
  induction fuel with
  | zero => intro st acc _ _ hf; omega
  | succ fuel ih =>
    intro st acc hr hacc hf
    cases hs : st.stream with
    | nil =>
      refine ⟨[], st.buffer, ?_, by simp [delivered], by simp [delivered], by simp⟩
      rw [readLoop, loopIter_eof heap h st hs]
      cases st
      simp_all [delivered]
    | cons c s =>
      have hit := loopIter_read heap h st c s acc hs hr hacc
      generalize hg : (fgets_read 2047 (c :: s)).1 = got at hit
      generalize hrest : (fgets_read 2047 (c :: s)).2 = rest at hit
      have hlt : rest.length < fuel := by
        have := fgets_read_rest_length 2046 c s
        rw [hrest] at this
        rw [hs] at hf
        omega
      have hacc' : (0 : Byte) ∉ acc ++ cstr got := by
        simp only [List.mem_append, not_or]
        exact ⟨hacc, nul_not_mem_cstr got⟩
      obtain ⟨evs, buffer, hrun, hdel, hchunks, hreads⟩ :=
        ih { stream := rest
             buffer := got ++ [0] ++ st.buffer.drop (got.length + 1)
             result := acc ++ cstr got ++ [0]
             trace := st.trace ++ [.fgets h (some got),
               .realloc (acc.length + (cstr got).length + 1)] }
          (acc ++ cstr got) rfl hacc' hlt
      refine ⟨.fgets h (some got) :: .realloc (acc.length + (cstr got).length + 1) :: evs,
        buffer, ?_, ?_, ?_, ?_⟩
      · rw [readLoop, hit]
        simp only []
        rw [hrun]
        simp [delivered]
      · have happ := fgets_read_append 2047 (c :: s)
        rw [hg, hrest] at happ
        simp only [delivered] at hdel
        simp [delivered, hdel, happ]
      · intro g hgm
        simp only [delivered, List.filterMap_cons, List.mem_cons] at hgm
        rcases hgm with rfl | hgm
        · refine ⟨?_, ?_⟩
          · rw [← hg]; exact fgets_read_ne_nil 2046 c s
          · rw [← hg]; exact fgets_read_length_le 2047 (c :: s)
        · exact hchunks g hgm
      · intro e he
        simp only [List.mem_cons] at he
        rcases he with rfl | rfl | he
        · simp [Event.isRead]
        · simp [Event.isRead]
        · exact hreads e he


theorem map_cstr_of_nul_free (l : List (List Byte)) (h : (0 : Byte) ∉ l.flatten) :
    l.map cstr = l := by
  induction l with
  | nil => rfl
  | cons g l ih =>
    simp only [List.flatten_cons, List.mem_append, not_or] at h
    rw [List.map_cons, cstr_of_nul_free h.1, ih h.2]

theorem flatten_length_le (m : Nat) (l : List (List Byte)) (h : ∀ g ∈ l, g.length ≤ m) :
    l.flatten.length ≤ m * l.length := by
  induction l with
  | nil => simp
  | cons g l ih =>
    have h1 := h g (List.mem_cons_self g l)
    have h2 := ih (fun x hx => h x (List.mem_cons_of_mem g hx))
    simp only [List.flatten_cons, List.length_append, List.length_cons]
    rw [Nat.mul_succ]
    omega

theorem delivered_append (a b : List Event) : delivered (a ++ b) = delivered a ++ delivered b := by
  simp [delivered, List.filterMap_append]

/-- The call `run_process(cmd)` when `popen` returns a stream: it returns, the
value is the strings of the chunks read one behind the other, and the calls made
are `popen`, `calloc`, the reads and reallocations, the `fgets` that meets end of
file, and `pclose`. -/
theorem run_process_spec (os : OS) (cmd : Block) (p : Pipe) (hp : os.popen (cstr cmd) = some p) :
    ∃ evs : List Event,
      run_process os cmd = .ok
        { trace := [.popen (cstr cmd) (some p.handle), .calloc 1 1] ++ evs ++
            [.fgets p.handle none, .pclose p.handle]
          value := ((delivered evs).map cstr).flatten ++ [0] } ∧
      (delivered evs).flatten = p.content ∧
      (∀ g ∈ delivered evs, g ≠ [] ∧ g.length ≤ 2047) ∧
      (∀ e ∈ evs, e.isRead p.handle = true) := by
  obtain ⟨evs, buffer, hrun, hdel, hchunks, hreads⟩ :=
    readLoop_spec os.heap p.handle (p.content.length + 1) (initState os cmd p) [] rfl
      (by simp) (by simp [initState])
  refine ⟨evs, ?_, hdel, hchunks, hreads⟩
  simp only [run_process, hp, hrun]
  simp [initState]

/-- The call `run_process(cmd)` always returns. -/
theorem run_process_returns (os : OS) (cmd : Block) : ∃ o, run_process os cmd = .ok o := by
  cases hp : os.popen (cstr cmd) with
  | none => exact ⟨_, by simp only [run_process, hp]; rfl⟩
  | some p =>
    obtain ⟨evs, h, _⟩ := run_process_spec os cmd p hp
    exact ⟨_, h⟩

/-! ## The command builder -/

theorem vformat_nul_free : ∀ (n : Nat) (fmt : List Byte) (args : List Block),
    fmt.length ≤ n → (0 : Byte) ∉ fmt → (0 : Byte) ∉ vformat fmt args := by
  intro n
  induction n with
  | zero =>
    intro fmt args hn _
    have : fmt = [] := List.length_eq_zero.mp (by omega)
    subst this
    simp [vformat]
  | succ n ih =>
    intro fmt args hn h0
    match fmt, hn, h0 with
    | [], _, _ => simp [vformat]
    | [c], _, h0 => simpa [vformat] using h0
    | c :: d :: rest, hn, h0 =>
      simp only [List.mem_cons, not_or] at h0
      simp only [List.length_cons] at hn
      simp only [vformat]
      split
      · cases args with
        | nil => exact ih rest [] (by omega) h0.2.2
        | cons a args =>
          simp only [List.mem_append, not_or]
          exact ⟨nul_not_mem_cstr a, ih rest args (by omega) h0.2.2⟩
      · simp only [List.mem_cons, not_or]
        refine ⟨h0.1, ih (d :: rest) args (by simp; omega) ?_⟩
        simp only [List.mem_cons, not_or]
        exact h0.2

/-- Text without a percent sign is copied as it is. -/
theorem vformat_text (pre rest : List Byte) (args : List Block) (h : (37 : Byte) ∉ pre) :
    vformat (pre ++ rest) args = pre ++ vformat rest args := by
  induction pre with
  | nil => rfl
  | cons c pre ih =>
    simp only [List.mem_cons, not_or] at h
    have hc : ¬ c = 37 := fun e => h.1 e.symm
    cases hpr : pre ++ rest with
    | nil =>
      have h1 : pre = [] := (List.append_eq_nil.mp hpr).1
      have h2 : rest = [] := (List.append_eq_nil.mp hpr).2
      subst h1 h2
      simp [vformat]
    | cons d tl =>
      rw [List.cons_append, hpr]
      simp only [vformat, hc, false_and, if_false]
      rw [← hpr, ih h.2]
      rfl

/-- The directive `%s` is replaced by the string of the next argument. -/
theorem vformat_directive (rest : List Byte) (a : Block) (args : List Block) :
    vformat (37 :: 115 :: rest) (a :: args) = cstr a ++ vformat rest args := by
  simp [vformat]

theorem vformat_compile (a b : Block) :
    vformat (cstr (lit "arduino-cli compile --fqbn %s %s")) [a, b] =
      bytes "arduino-cli compile --fqbn " ++ cstr a ++ bytes " " ++ cstr b := by
  have hf : cstr (lit "arduino-cli compile --fqbn %s %s") =
      bytes "arduino-cli compile --fqbn " ++ (37 :: 115 :: (bytes " " ++ (37 :: 115 :: []))) := by
    decide
  rw [hf, vformat_text _ _ _ (by decide), vformat_directive, vformat_text _ _ _ (by decide),
    vformat_directive]
  simp [vformat]

theorem vformat_upload (a b c : Block) :
    vformat (cstr (lit "arduino-cli upload -p %s --fqbn %s %s")) [a, b, c] =
      bytes "arduino-cli upload -p " ++ cstr a ++ bytes " --fqbn " ++ cstr b ++ bytes " " ++
        cstr c := by
  have hf : cstr (lit "arduino-cli upload -p %s --fqbn %s %s") =
      bytes "arduino-cli upload -p " ++ (37 :: 115 :: (bytes " --fqbn " ++
        (37 :: 115 :: (bytes " " ++ (37 :: 115 :: []))))) := by
    decide
  rw [hf, vformat_text _ _ _ (by decide), vformat_directive, vformat_text _ _ _ (by decide),
    vformat_directive, vformat_text _ _ _ (by decide), vformat_directive]
  simp [vformat]

/-- The string `snprintf` leaves in a non-empty array: the first `size - 1` bytes
of the expansion. -/
theorem cstr_snprintf (dst : Block) (size : Nat) (fmt : Block) (args : List Block)
    (hsize : size ≠ 0) :
    cstr (snprintf dst size fmt args).1 = (vformat (cstr fmt) args).take (size - 1) := by
  have h0 : (0 : Byte) ∉ (vformat (cstr fmt) args).take (size - 1) := fun hm =>
    vformat_nul_free _ _ args (le_refl _) (nul_not_mem_cstr fmt) (List.mem_of_mem_take hm)
  simp only [snprintf, if_neg hsize, List.append_assoc, List.singleton_append]
  exact cstr_terminated h0 _

theorem cstr_GetStringUTFChars (j : List Byte) : cstr (GetStringUTFChars j) = cstr j := by
  simp [GetStringUTFChars, cstr_append_nul]

theorem compile_full_eq (jSketch jFqbn : List Byte) :
    compile_full jSketch jFqbn =
      bytes "arduino-cli compile --fqbn " ++ cstr jFqbn ++ bytes " " ++ cstr jSketch := by
  rw [compile_full, vformat_compile, cstr_GetStringUTFChars, cstr_GetStringUTFChars]

theorem upload_full_eq (jSketch jFqbn jPort : List Byte) :
    upload_full jSketch jFqbn jPort =
      bytes "arduino-cli upload -p " ++ cstr jPort ++ bytes " --fqbn " ++ cstr jFqbn ++
        bytes " " ++ cstr jSketch := by
  rw [upload_full, vformat_upload, cstr_GetStringUTFChars, cstr_GetStringUTFChars,
    cstr_GetStringUTFChars]

theorem cstr_compile_cmd (os : OS) (jSketch jFqbn : List Byte) :
    cstr (compile_cmd os jSketch jFqbn) = (compile_full jSketch jFqbn).take 1023 := by
  rw [compile_cmd, cstr_snprintf _ _ _ _ (by decide)]
  rfl

theorem cstr_upload_cmd (os : OS) (jSketch jFqbn jPort : List Byte) :
    cstr (upload_cmd os jSketch jFqbn jPort) = (upload_full jSketch jFqbn jPort).take 1023 := by
  rw [upload_cmd, cstr_snprintf _ _ _ _ (by decide)]
  rfl


/-! ## Shared facts about `run_process` and the entry points -/

theorem Printable.nul_free {s : List Byte} (h : Printable s) : (0 : Byte) ∉ s := by
  intro hm
  have h32 := (h 0 hm).1
  exact absurd h32 (by decide)

theorem printable_replicate (n : Nat) (b : Byte) (h : 32 ≤ b.toNat ∧ b.toNat ≠ 127) :
    Printable (List.replicate n b) := by
  intro x hx
  rw [(List.mem_replicate.mp hx).2]
  exact h

/-- The first call of `run_process` is `popen` on the string of `cmd`. -/
theorem run_process_head (os : OS) (cmd : Block) :
    ∃ o, run_process os cmd = .ok o ∧
      o.trace.head? = some (.popen (cstr cmd) ((os.popen (cstr cmd)).map Pipe.handle)) := by
  cases hp : os.popen (cstr cmd) with
  | none =>
    refine ⟨{ trace := [.popen (cstr cmd) none, .strdup (cstr (lit "ERROR: cannot run command"))]
              value := strdup (lit "ERROR: cannot run command") }, ?_, rfl⟩
    simp only [run_process, hp]
  | some p =>
    obtain ⟨evs, h, _⟩ := run_process_spec os cmd p hp
    exact ⟨_, h, rfl⟩

theorem isRead_countP (h : Nat) (evs : List Event) (hr : ∀ e ∈ evs, e.isRead h = true) :
    evs.countP Event.isPopen = 0 ∧ evs.countP Event.isPclose = 0 ∧
      evs.countP Event.isCalloc = 0 := by
  refine ⟨?_, ?_, ?_⟩ <;>
  · rw [List.countP_eq_zero]
    intro e he
    have := hr e he
    cases e <;> simp_all [Event.isRead, Event.isPopen, Event.isPclose, Event.isCalloc]

theorem take_eq_self_iff_length (l : List Byte) (n : Nat) : l.take n = l ↔ l.length ≤ n := by
  constructor
  · intro h
    have := congrArg List.length h
    rw [List.length_take] at this
    omega
  · exact List.take_of_length_le

/-- The failure path of `run_process`: the value and the trace. -/
theorem spawn_failure_outcome (os : OS) (cmd : Block)
    (hp : os.popen (cstr cmd) = none) :
    ∃ o, run_process os cmd = .ok o ∧
      cstr o.value = bytes "ERROR: cannot run command" ∧
      o.value = lit "ERROR: cannot run command" ∧
      o.trace = [.popen (cstr cmd) none, .strdup (bytes "ERROR: cannot run command")] ∧
      o.trace.countP Event.isFgets = 0 ∧
      o.trace.countP Event.isCalloc = 0 ∧
      o.trace.countP Event.isPclose = 0 := by
  refine ⟨{ trace := [.popen (cstr cmd) none, .strdup (cstr (lit "ERROR: cannot run command"))]
            value := strdup (lit "ERROR: cannot run command") }, ?_, ?_, ?_, ?_, ?_, ?_, ?_⟩
  · simp only [run_process, hp]
  · show cstr (strdup (lit "ERROR: cannot run command")) = bytes "ERROR: cannot run command"
    decide
  · show strdup (lit "ERROR: cannot run command") = lit "ERROR: cannot run command"
    decide
  · have h : cstr (lit "ERROR: cannot run command") = bytes "ERROR: cannot run command" := by
      decide
    rw [h]
  · rfl
  · rfl
  · rfl

/-- The success path of `run_process` on output without NUL byte. -/
theorem nul_free_output_outcome (os : OS) (cmd : Block) (p : Pipe)
    (hp : os.popen (cstr cmd) = some p) (h0 : (0 : Byte) ∉ p.content) :
    ∃ o, run_process os cmd = .ok o ∧ o.value = p.content ++ [0] ∧ cstr o.value = p.content := by
  obtain ⟨evs, hrun, hdel, _, _⟩ := run_process_spec os cmd p hp
  have hmap : (delivered evs).map cstr = delivered evs :=
    map_cstr_of_nul_free _ (by rw [hdel]; exact h0)
  refine ⟨_, hrun, ?_, ?_⟩
  · simp only [hmap, hdel]
  · simp only [hmap, hdel]
    exact cstr_terminated h0 []

/-- Every state the loop reaches holds a terminated accumulator. -/
theorem stateAfter_terminated (heap : Nat → Byte) (h : Nat) :
    ∀ (k : Nat) (st0 st : LoopState), (∃ acc, st0.result = acc ++ [0] ∧ (0 : Byte) ∉ acc) →
      stateAfter heap h k st0 = some st → ∃ acc, st.result = acc ++ [0] ∧ (0 : Byte) ∉ acc := by
  intro k
  induction k with
  | zero =>
    intro st0 st hwf hk
    simp only [stateAfter, Option.some.injEq] at hk
    rw [← hk]
    exact hwf
  | succ k ih =>
    intro st0 st hwf hk
    obtain ⟨acc, hr, hacc⟩ := hwf
    cases hs : st0.stream with
    | nil =>
      simp [stateAfter, loopIter_eof heap h st0 hs] at hk
    | cons c s =>
      simp only [stateAfter, loopIter_read heap h st0 c s acc hs hr hacc] at hk
      refine ih _ st ⟨acc ++ cstr (fgets_read 2047 (c :: s)).1, rfl, ?_⟩ hk
      simp only [List.mem_append, not_or]
      exact ⟨hacc, nul_not_mem_cstr _⟩

/-- Fuel beyond what the loop needs does not change what it returns. -/
theorem readLoop_fuel_mono (heap : Nat → Byte) (h : Nat) :
    ∀ (fuel : Nat) (st st' : LoopState), readLoop heap h fuel st = .ok st' →
      ∀ extra : Nat, readLoop heap h (fuel + extra) st = .ok st' := by
  intro fuel
  induction fuel with
  | zero =>
    intro st st' hrun
    simp [readLoop] at hrun
  | succ fuel ih =>
    intro st st' hrun extra
    rw [Nat.add_right_comm]
    simp only [readLoop] at hrun ⊢
    cases hit : loopIter heap h st with
    | exit s => simpa [hit] using hrun
    | next s =>
      simp only [hit] at hrun ⊢
      exact ih s st' hrun extra
    | fault => simp [hit] at hrun


/-! ## The command line of the entry points -/

/-- C1, as amended: for a non-empty printable target `jFqbn` and a non-empty
printable source path `jSketch` whose command line has at most 1023 bytes, the
string the `compile` entry point hands to `run_process` is exactly
`"arduino-cli compile --fqbn " ++ jFqbn ++ " " ++ jSketch`, the entry point
returns, and its first call is `popen` on that string. -/
theorem compile_command_line (os : OS) (jSketch jFqbn : List Byte)
    (_hs : jSketch ≠ []) (_hf : jFqbn ≠ []) (hps : Printable jSketch) (hpf : Printable jFqbn)
    (hlen : (bytes "arduino-cli compile --fqbn " ++ jFqbn ++ bytes " " ++ jSketch).length
      ≤ 1023) :
    cstr (compile_cmd os jSketch jFqbn) =
      bytes "arduino-cli compile --fqbn " ++ jFqbn ++ bytes " " ++ jSketch ∧
    ∃ o, Java_com_anode_arduino_jni_ArduinoCLINative_compile os jSketch jFqbn = .ok o ∧
      o.trace.head? = some (.popen
        (bytes "arduino-cli compile --fqbn " ++ jFqbn ++ bytes " " ++ jSketch)
        ((os.popen (bytes "arduino-cli compile --fqbn " ++ jFqbn ++ bytes " " ++ jSketch)).map
          Pipe.handle)) := by
  have hcmd : cstr (compile_cmd os jSketch jFqbn) =
      bytes "arduino-cli compile --fqbn " ++ jFqbn ++ bytes " " ++ jSketch := by
    rw [cstr_compile_cmd, compile_full_eq, cstr_of_nul_free hps.nul_free,
      cstr_of_nul_free hpf.nul_free]
    exact List.take_of_length_le hlen
  refine ⟨hcmd, ?_⟩
  obtain ⟨o, hrun, hhead⟩ := run_process_head os (compile_cmd os jSketch jFqbn)
  rw [hcmd] at hhead
  exact ⟨{ o with value := NewStringUTF o.value },
    by simp only [Java_com_anode_arduino_jni_ArduinoCLINative_compile, hrun], hhead⟩

/-- C1, an instance of the amended statement: the target `arduino:avr:uno` and
the source `Blink.ino`. -/
theorem compile_command_line_witness :
    (bytes "Blink.ino" ≠ [] ∧ bytes "arduino:avr:uno" ≠ [] ∧
      Printable (bytes "Blink.ino") ∧ Printable (bytes "arduino:avr:uno") ∧
      (bytes "arduino-cli compile --fqbn " ++ bytes "arduino:avr:uno" ++ bytes " " ++
        bytes "Blink.ino").length ≤ 1023) ∧
    (cstr (compile_cmd (osWith none) (bytes "Blink.ino") (bytes "arduino:avr:uno")) =
      bytes "arduino-cli compile --fqbn " ++ bytes "arduino:avr:uno" ++ bytes " " ++
        bytes "Blink.ino" ∧
    ∃ o, Java_com_anode_arduino_jni_ArduinoCLINative_compile (osWith none)
        (bytes "Blink.ino") (bytes "arduino:avr:uno") = .ok o ∧
      o.trace.head? = some (.popen
        (bytes "arduino-cli compile --fqbn " ++ bytes "arduino:avr:uno" ++ bytes " " ++
          bytes "Blink.ino")
        (((osWith none).popen (bytes "arduino-cli compile --fqbn " ++ bytes "arduino:avr:uno" ++
          bytes " " ++ bytes "Blink.ino")).map Pipe.handle))) :=
  ⟨⟨by decide, by decide, by decide, by decide, by decide⟩,
    compile_command_line (osWith none) (bytes "Blink.ino") (bytes "arduino:avr:uno")
      (by decide) (by decide) (by decide) (by decide) (by decide)⟩

/-- C1 as stated fails: for the printable target `a` and a printable source path
of 1100 letters `a`, the string handed to `run_process` is not the whole command
line but its first 1023 bytes, which end after 994 letters of the path. -/
theorem long_sketch_cuts_compile_command :
    List.replicate 1100 (97 : Byte) ≠ [] ∧ bytes "a" ≠ [] ∧
    Printable (List.replicate 1100 97) ∧ Printable (bytes "a") ∧
    cstr (compile_cmd (osWith none) (List.replicate 1100 97) (bytes "a")) ≠
      bytes "arduino-cli compile --fqbn " ++ bytes "a" ++ bytes " " ++ List.replicate 1100 97 ∧
    cstr (compile_cmd (osWith none) (List.replicate 1100 97) (bytes "a")) =
      bytes "arduino-cli compile --fqbn " ++ bytes "a" ++ bytes " " ++ List.replicate 994 97 := by
  have hp : Printable (List.replicate 1100 (97 : Byte)) :=
    printable_replicate 1100 97 (by decide)
  have hpre : (bytes "arduino-cli compile --fqbn " ++ bytes "a" ++ bytes " ").length = 29 := by
    decide
  have heq : cstr (compile_cmd (osWith none) (List.replicate 1100 97) (bytes "a")) =
      bytes "arduino-cli compile --fqbn " ++ bytes "a" ++ bytes " " ++
        List.replicate 994 97 := by
    rw [cstr_compile_cmd, compile_full_eq, cstr_of_nul_free hp.nul_free,
      cstr_of_nul_free (by decide), List.take_append_eq_append_take, hpre,
      List.take_of_length_le (by rw [hpre]; decide), List.take_replicate]
    rfl
  refine ⟨List.ne_nil_of_length_pos (by rw [List.length_replicate]; decide), by decide, hp, by decide, ?_, heq⟩
  rw [heq]
  intro h
  have := congrArg List.length h
  simp only [List.length_append, List.length_replicate] at this
  omega

/-- C2, as amended: for non-empty printable target, source path and port whose
command line has at most 1023 bytes, the string the `upload` entry point hands
to `run_process` is exactly
`"arduino-cli upload -p " ++ jPort ++ " --fqbn " ++ jFqbn ++ " " ++ jSketch`, the
entry point returns, and its first call is `popen` on that string. -/
theorem upload_command_line (os : OS) (jSketch jFqbn jPort : List Byte)
    (_hs : jSketch ≠ []) (_hf : jFqbn ≠ []) (_hp : jPort ≠ [])
    (hps : Printable jSketch) (hpf : Printable jFqbn) (hpp : Printable jPort)
    (hlen : (bytes "arduino-cli upload -p " ++ jPort ++ bytes " --fqbn " ++ jFqbn ++
      bytes " " ++ jSketch).length ≤ 1023) :
    cstr (upload_cmd os jSketch jFqbn jPort) =
      bytes "arduino-cli upload -p " ++ jPort ++ bytes " --fqbn " ++ jFqbn ++ bytes " " ++
        jSketch ∧
    ∃ o, Java_com_anode_arduino_jni_ArduinoCLINative_upload os jSketch jFqbn jPort = .ok o ∧
      o.trace.head? = some (.popen
        (bytes "arduino-cli upload -p " ++ jPort ++ bytes " --fqbn " ++ jFqbn ++ bytes " " ++
          jSketch)
        ((os.popen (bytes "arduino-cli upload -p " ++ jPort ++ bytes " --fqbn " ++ jFqbn ++
          bytes " " ++ jSketch)).map Pipe.handle)) := by
  have hcmd : cstr (upload_cmd os jSketch jFqbn jPort) =
      bytes "arduino-cli upload -p " ++ jPort ++ bytes " --fqbn " ++ jFqbn ++ bytes " " ++
        jSketch := by
    rw [cstr_upload_cmd, upload_full_eq, cstr_of_nul_free hps.nul_free,
      cstr_of_nul_free hpf.nul_free, cstr_of_nul_free hpp.nul_free]
    exact List.take_of_length_le hlen
  refine ⟨hcmd, ?_⟩
  obtain ⟨o, hrun, hhead⟩ := run_process_head os (upload_cmd os jSketch jFqbn jPort)
  rw [hcmd] at hhead
  exact ⟨{ o with value := NewStringUTF o.value },
    by simp only [Java_com_anode_arduino_jni_ArduinoCLINative_upload, hrun], hhead⟩

/-- C2, an instance of the amended statement: the target `arduino:avr:uno`, the
source `Blink.ino` and the port `/dev/ttyACM0`. -/
theorem upload_command_line_witness :
    (bytes "Blink.ino" ≠ [] ∧ bytes "arduino:avr:uno" ≠ [] ∧ bytes "/dev/ttyACM0" ≠ [] ∧
      Printable (bytes "Blink.ino") ∧ Printable (bytes "arduino:avr:uno") ∧
      Printable (bytes "/dev/ttyACM0") ∧
      (bytes "arduino-cli upload -p " ++ bytes "/dev/ttyACM0" ++ bytes " --fqbn " ++
        bytes "arduino:avr:uno" ++ bytes " " ++ bytes "Blink.ino").length ≤ 1023) ∧
    (cstr (upload_cmd (osWith none) (bytes "Blink.ino") (bytes "arduino:avr:uno")
        (bytes "/dev/ttyACM0")) =
      bytes "arduino-cli upload -p " ++ bytes "/dev/ttyACM0" ++ bytes " --fqbn " ++
        bytes "arduino:avr:uno" ++ bytes " " ++ bytes "Blink.ino" ∧
    ∃ o, Java_com_anode_arduino_jni_ArduinoCLINative_upload (osWith none)
        (bytes "Blink.ino") (bytes "arduino:avr:uno") (bytes "/dev/ttyACM0") = .ok o ∧
      o.trace.head? = some (.popen
        (bytes "arduino-cli upload -p " ++ bytes "/dev/ttyACM0" ++ bytes " --fqbn " ++
          bytes "arduino:avr:uno" ++ bytes " " ++ bytes "Blink.ino")
        (((osWith none).popen (bytes "arduino-cli upload -p " ++ bytes "/dev/ttyACM0" ++
          bytes " --fqbn " ++ bytes "arduino:avr:uno" ++ bytes " " ++
          bytes "Blink.ino")).map Pipe.handle))) :=
  ⟨⟨by decide, by decide, by decide, by decide, by decide, by decide, by decide⟩,
    upload_command_line (osWith none) (bytes "Blink.ino") (bytes "arduino:avr:uno")
      (bytes "/dev/ttyACM0") (by decide) (by decide) (by decide) (by decide) (by decide)
      (by decide) (by decide)⟩

/-- C2 as stated fails: for the printable port `p`, the printable target `a` and a
printable source path of 1100 letters `a`, the string handed to `run_process` is
the first 1023 bytes of the command line, which end after 990 letters of the
path. -/
theorem long_sketch_cuts_upload_command :
    List.replicate 1100 (97 : Byte) ≠ [] ∧ bytes "a" ≠ [] ∧ bytes "p" ≠ [] ∧
    Printable (List.replicate 1100 97) ∧ Printable (bytes "a") ∧ Printable (bytes "p") ∧
    cstr (upload_cmd (osWith none) (List.replicate 1100 97) (bytes "a") (bytes "p")) ≠
      bytes "arduino-cli upload -p " ++ bytes "p" ++ bytes " --fqbn " ++ bytes "a" ++
        bytes " " ++ List.replicate 1100 97 ∧
    cstr (upload_cmd (osWith none) (List.replicate 1100 97) (bytes "a") (bytes "p")) =
      bytes "arduino-cli upload -p " ++ bytes "p" ++ bytes " --fqbn " ++ bytes "a" ++
        bytes " " ++ List.replicate 990 97 := by
  have hp : Printable (List.replicate 1100 (97 : Byte)) :=
    printable_replicate 1100 97 (by decide)
  have hpre : (bytes "arduino-cli upload -p " ++ bytes "p" ++ bytes " --fqbn " ++ bytes "a" ++
      bytes " ").length = 33 := by
    decide
  have heq : cstr (upload_cmd (osWith none) (List.replicate 1100 97) (bytes "a") (bytes "p")) =
      bytes "arduino-cli upload -p " ++ bytes "p" ++ bytes " --fqbn " ++ bytes "a" ++
        bytes " " ++ List.replicate 990 97 := by
    rw [cstr_upload_cmd, upload_full_eq, cstr_of_nul_free hp.nul_free,
      cstr_of_nul_free (by decide), cstr_of_nul_free (by decide),
      List.take_append_eq_append_take, hpre,
      List.take_of_length_le (by rw [hpre]; decide), List.take_replicate]
    rfl
  refine ⟨List.ne_nil_of_length_pos (by rw [List.length_replicate]; decide), by decide, by decide, hp, by decide, by decide, ?_, heq⟩
  rw [heq]
  intro h
  have := congrArg List.length h
  simp only [List.length_append, List.length_replicate] at this
  omega

/-- C10: the string each entry point hands to `run_process` is the first
`min n 1023` bytes of its whole command line, where `n`, the value `snprintf`
returns, is the length of that command line; it has at most 1023 bytes, is a
prefix of the whole command line and equals it exactly when `n ≤ 1023`; and
whatever `n` is, the entry point goes on to `run_process`, whose first call is
`popen` on that string, and returns its result. -/
theorem command_line_bounded (os : OS) (jSketch jFqbn jPort : List Byte) :
    (compile_full jSketch jFqbn =
        bytes "arduino-cli compile --fqbn " ++ cstr jFqbn ++ bytes " " ++ cstr jSketch ∧
      (snprintf (stackArray os.stack 1024) 1024 (lit "arduino-cli compile --fqbn %s %s")
        [GetStringUTFChars jFqbn, GetStringUTFChars jSketch]).2 =
        (compile_full jSketch jFqbn).length ∧
      cstr (compile_cmd os jSketch jFqbn) = (compile_full jSketch jFqbn).take
        (min (compile_full jSketch jFqbn).length 1023) ∧
      (cstr (compile_cmd os jSketch jFqbn)).length ≤ 1023 ∧
      cstr (compile_cmd os jSketch jFqbn) <+: compile_full jSketch jFqbn ∧
      (cstr (compile_cmd os jSketch jFqbn) = compile_full jSketch jFqbn ↔
        (compile_full jSketch jFqbn).length ≤ 1023) ∧
      ∃ o, run_process os (compile_cmd os jSketch jFqbn) = .ok o ∧
        o.trace.head? = some (.popen (cstr (compile_cmd os jSketch jFqbn))
          ((os.popen (cstr (compile_cmd os jSketch jFqbn))).map Pipe.handle)) ∧
        Java_com_anode_arduino_jni_ArduinoCLINative_compile os jSketch jFqbn =
          .ok { o with value := NewStringUTF o.value }) ∧
    (upload_full jSketch jFqbn jPort =
        bytes "arduino-cli upload -p " ++ cstr jPort ++ bytes " --fqbn " ++ cstr jFqbn ++
          bytes " " ++ cstr jSketch ∧
      (snprintf (stackArray os.stack 1024) 1024 (lit "arduino-cli upload -p %s --fqbn %s %s")
        [GetStringUTFChars jPort, GetStringUTFChars jFqbn, GetStringUTFChars jSketch]).2 =
        (upload_full jSketch jFqbn jPort).length ∧
      cstr (upload_cmd os jSketch jFqbn jPort) = (upload_full jSketch jFqbn jPort).take
        (min (upload_full jSketch jFqbn jPort).length 1023) ∧
      (cstr (upload_cmd os jSketch jFqbn jPort)).length ≤ 1023 ∧
      cstr (upload_cmd os jSketch jFqbn jPort) <+: upload_full jSketch jFqbn jPort ∧
      (cstr (upload_cmd os jSketch jFqbn jPort) = upload_full jSketch jFqbn jPort ↔
        (upload_full jSketch jFqbn jPort).length ≤ 1023) ∧
      ∃ o, run_process os (upload_cmd os jSketch jFqbn jPort) = .ok o ∧
        o.trace.head? = some (.popen (cstr (upload_cmd os jSketch jFqbn jPort))
          ((os.popen (cstr (upload_cmd os jSketch jFqbn jPort))).map Pipe.handle)) ∧
        Java_com_anode_arduino_jni_ArduinoCLINative_upload os jSketch jFqbn jPort =
          .ok { o with value := NewStringUTF o.value }) := by
  have key : ∀ full : List Byte, full.take 1023 = full.take (min full.length 1023) ∧
      (full.take 1023).length ≤ 1023 ∧ full.take 1023 <+: full ∧
      (full.take 1023 = full ↔ full.length ≤ 1023) := by
    intro full
    refine ⟨?_, ?_, List.take_prefix _ _, take_eq_self_iff_length full 1023⟩
    · rcases Nat.le_total full.length 1023 with h | h
      · rw [Nat.min_eq_left h, List.take_of_length_le h, List.take_of_length_le (le_refl _)]
      · rw [Nat.min_eq_right h]
    · rw [List.length_take]; omega
  refine ⟨⟨compile_full_eq jSketch jFqbn, ?_, ?_⟩, ⟨upload_full_eq jSketch jFqbn jPort, ?_, ?_⟩⟩
  · simp [snprintf, compile_full]
  · rw [cstr_compile_cmd]
    obtain ⟨k1, k2, k3, k4⟩ := key (compile_full jSketch jFqbn)
    refine ⟨k1, k2, k3, k4, ?_⟩
    obtain ⟨o, hrun, hhead⟩ := run_process_head os (compile_cmd os jSketch jFqbn)
    rw [cstr_compile_cmd] at hhead
    exact ⟨o, hrun, hhead,
      by simp only [Java_com_anode_arduino_jni_ArduinoCLINative_compile, hrun]⟩
  · simp [snprintf, upload_full]
  · rw [cstr_upload_cmd]
    obtain ⟨k1, k2, k3, k4⟩ := key (upload_full jSketch jFqbn jPort)
    refine ⟨k1, k2, k3, k4, ?_⟩
    obtain ⟨o, hrun, hhead⟩ := run_process_head os (upload_cmd os jSketch jFqbn jPort)
    rw [cstr_upload_cmd] at hhead
    exact ⟨o, hrun, hhead,
      by simp only [Java_com_anode_arduino_jni_ArduinoCLINative_upload, hrun]⟩


/-! ## The process runner -/

/-- C3: when `popen` returns `NULL` for the command line, `run_process` returns
exactly the string `ERROR: cannot run command`; the only calls it makes are that
`popen` and the `strdup` of the text, so nothing is read and no output buffer is
allocated. -/
theorem run_process_spawn_failure (os : OS) (cmd : Block) (hp : os.popen (cstr cmd) = none) :
    ∃ o, run_process os cmd = .ok o ∧
      cstr o.value = bytes "ERROR: cannot run command" ∧
      o.value = lit "ERROR: cannot run command" ∧
      o.trace = [.popen (cstr cmd) none, .strdup (bytes "ERROR: cannot run command")] ∧
      o.trace.countP Event.isFgets = 0 ∧
      o.trace.countP Event.isCalloc = 0 ∧
      o.trace.countP Event.isPclose = 0 :=
  spawn_failure_outcome os cmd hp

/-- C3, an instance: the command line `arduino-cli version` on a system whose
`popen` fails. -/
theorem run_process_spawn_failure_witness :
    (osWith none).popen (cstr (lit "arduino-cli version")) = none ∧
    ∃ o, run_process (osWith none) (lit "arduino-cli version") = .ok o ∧
      cstr o.value = bytes "ERROR: cannot run command" ∧
      o.value = lit "ERROR: cannot run command" ∧
      o.trace = [.popen (cstr (lit "arduino-cli version")) none,
        .strdup (bytes "ERROR: cannot run command")] ∧
      o.trace.countP Event.isFgets = 0 ∧
      o.trace.countP Event.isCalloc = 0 ∧
      o.trace.countP Event.isPclose = 0 :=
  ⟨rfl, run_process_spawn_failure (osWith none) (lit "arduino-cli version") rfl⟩

/-- C4, as amended: when the pipe opens and the child writes the bytes `s`, none
of them NUL, before closing its output, `run_process` returns the block `s`
followed by a terminator, a string whose content is exactly `s`. -/
theorem run_process_captures_output (os : OS) (cmd : Block) (p : Pipe)
    (hp : os.popen (cstr cmd) = some p) (h0 : (0 : Byte) ∉ p.content) :
    ∃ o, run_process os cmd = .ok o ∧ o.value = p.content ++ [0] ∧ cstr o.value = p.content :=
  nul_free_output_outcome os cmd p hp h0

/-- C4, an instance of the amended statement: a child that prints exactly
`done` and a newline yields `done` and a newline. -/
theorem run_process_captures_output_witness :
    ((osWith (some ⟨3, bytes "done\n"⟩)).popen (cstr (lit "arduino-cli version")) =
        some ⟨3, bytes "done\n"⟩ ∧
      (0 : Byte) ∉ (⟨3, bytes "done\n"⟩ : Pipe).content) ∧
    ∃ o, run_process (osWith (some ⟨3, bytes "done\n"⟩)) (lit "arduino-cli version") = .ok o ∧
      o.value = (⟨3, bytes "done\n"⟩ : Pipe).content ++ [0] ∧
      cstr o.value = (⟨3, bytes "done\n"⟩ : Pipe).content :=
  ⟨⟨rfl, by decide⟩,
    run_process_captures_output (osWith (some ⟨3, bytes "done\n"⟩)) (lit "arduino-cli version")
      ⟨3, bytes "done\n"⟩ rfl (by decide)⟩

/-- C4 as stated fails: the pipe opens and the child writes the four bytes `a`,
NUL, `b`, newline; `fgets` stores all four, `strlen(buffer)` is 1, and
`run_process` returns the string `a`, which is not what the child wrote. -/
theorem run_process_drops_after_nul :
    (osWith (some ⟨3, [97, 0, 98, 10]⟩)).popen (cstr (lit "arduino-cli version")) =
      some ⟨3, [97, 0, 98, 10]⟩ ∧
    run_process (osWith (some ⟨3, [97, 0, 98, 10]⟩)) (lit "arduino-cli version") =
      .ok { trace := [.popen (bytes "arduino-cli version") (some 3), .calloc 1 1,
              .fgets 3 (some [97, 0, 98, 10]), .realloc 2, .fgets 3 none, .pclose 3]
            value := [97, 0] } ∧
    cstr [97, 0] = [97] ∧
    cstr [97, 0] ≠ [97, 0, 98, 10] := by
  refine ⟨rfl, by rfl, by decide, by decide⟩

/-- C5: when the pipe opens and the child writes more than 2047 bytes, none of
them NUL, the chunks the successive `fgets` calls store have at most 2047 bytes
each, there are at least two of them, they concatenate to the bytes written, and
the string `run_process` returns is that concatenation: the bytes written, as
many and in the same order. -/
theorem run_process_long_output (os : OS) (cmd : Block) (p : Pipe)
    (hp : os.popen (cstr cmd) = some p) (h0 : (0 : Byte) ∉ p.content)
    (hlong : 2047 < p.content.length) :
    ∃ o, run_process os cmd = .ok o ∧
      (∀ g ∈ delivered o.trace, g.length ≤ 2047) ∧
      2 ≤ (delivered o.trace).length ∧
      (delivered o.trace).flatten = p.content ∧
      cstr o.value = (delivered o.trace).flatten ∧
      cstr o.value = p.content ∧
      (cstr o.value).length = p.content.length := by
  obtain ⟨evs, hrun, hdel, hchunks, _⟩ := run_process_spec os cmd p hp
  have hmap : (delivered evs).map cstr = delivered evs :=
    map_cstr_of_nul_free _ (by rw [hdel]; exact h0)
  have htr : delivered ([.popen (cstr cmd) (some p.handle), .calloc 1 1] ++ evs ++
      [.fgets p.handle none, .pclose p.handle]) = delivered evs := by
    rw [delivered_append, delivered_append]
    simp [delivered]
  have hval : cstr (((delivered evs).map cstr).flatten ++ [0]) = p.content := by
    rw [hmap, hdel]
    exact cstr_terminated h0 []
  refine ⟨_, hrun, ?_, ?_, ?_, ?_, hval, by rw [hval]⟩
  · intro g hg
    rw [htr] at hg
    exact (hchunks g hg).2
  · have hle := flatten_length_le 2047 (delivered evs) (fun g hg => (hchunks g hg).2)
    rw [hdel] at hle
    rw [htr]
    omega
  · rw [htr, hdel]
  · rw [htr, hdel, hval]

/-- C5, an instance: a child that writes 3000 letters `a` and no newline. -/
theorem run_process_long_output_witness :
    ((osWith (some ⟨3, List.replicate 3000 97⟩)).popen (cstr (lit "arduino-cli version")) =
        some ⟨3, List.replicate 3000 97⟩ ∧
      (0 : Byte) ∉ (⟨3, List.replicate 3000 97⟩ : Pipe).content ∧
      2047 < (⟨3, List.replicate 3000 97⟩ : Pipe).content.length) ∧
    ∃ o, run_process (osWith (some ⟨3, List.replicate 3000 97⟩)) (lit "arduino-cli version") =
        .ok o ∧
      (∀ g ∈ delivered o.trace, g.length ≤ 2047) ∧
      2 ≤ (delivered o.trace).length ∧
      (delivered o.trace).flatten = (⟨3, List.replicate 3000 97⟩ : Pipe).content ∧
      cstr o.value = (delivered o.trace).flatten ∧
      cstr o.value = (⟨3, List.replicate 3000 97⟩ : Pipe).content ∧
      (cstr o.value).length = (⟨3, List.replicate 3000 97⟩ : Pipe).content.length :=
  ⟨⟨rfl, fun h => absurd (List.mem_replicate.mp h).2 (by decide),
      by show 2047 < (List.replicate 3000 (97 : Byte)).length; rw [List.length_replicate]; decide⟩,
    run_process_long_output (osWith (some ⟨3, List.replicate 3000 97⟩))
      (lit "arduino-cli version") ⟨3, List.replicate 3000 97⟩ rfl
      (fun h => absurd (List.mem_replicate.mp h).2 (by decide))
      (by show 2047 < (List.replicate 3000 (97 : Byte)).length; rw [List.length_replicate]; decide)⟩

/-- C6: when the pipe opens and the child writes nothing before closing its
output, `run_process` returns the string of length zero, which is not the text
`ERROR: cannot run command`; its calls are `popen`, `calloc`, one `fgets` that
meets end of file, and `pclose`. -/
theorem run_process_empty_output (os : OS) (cmd : Block) (p : Pipe)
    (hp : os.popen (cstr cmd) = some p) (hempty : p.content = []) :
    ∃ o, run_process os cmd = .ok o ∧
      o.value = [0] ∧
      cstr o.value = [] ∧
      (cstr o.value).length = 0 ∧
      cstr o.value ≠ bytes "ERROR: cannot run command" ∧
      o.trace = [.popen (cstr cmd) (some p.handle), .calloc 1 1, .fgets p.handle none,
        .pclose p.handle] := by
  refine ⟨{ trace := [.popen (cstr cmd) (some p.handle), .calloc 1 1, .fgets p.handle none,
              .pclose p.handle]
            value := [0] }, ?_, rfl, ?_, ?_, ?_, rfl⟩
  rotate_left
  · show cstr [0] = []
    decide
  · show (cstr [0]).length = 0
    decide
  · show cstr [0] ≠ bytes "ERROR: cannot run command"
    decide
  have hit := loopIter_eof os.heap p.handle (initState os cmd p) hempty
  simp only [run_process, hp, hempty, List.length_nil, Nat.zero_add, readLoop, hit]
  simp [initState, calloc]

/-- C6, an instance: a child that writes nothing. -/
theorem run_process_empty_output_witness :
    ((osWith (some ⟨3, []⟩)).popen (cstr (lit "arduino-cli version")) = some ⟨3, []⟩ ∧
      (⟨3, []⟩ : Pipe).content = []) ∧
    ∃ o, run_process (osWith (some ⟨3, []⟩)) (lit "arduino-cli version") = .ok o ∧
      o.value = [0] ∧
      cstr o.value = [] ∧
      (cstr o.value).length = 0 ∧
      cstr o.value ≠ bytes "ERROR: cannot run command" ∧
      o.trace = [.popen (cstr (lit "arduino-cli version")) (some (⟨3, []⟩ : Pipe).handle),
        .calloc 1 1, .fgets (⟨3, []⟩ : Pipe).handle none, .pclose (⟨3, []⟩ : Pipe).handle] :=
  ⟨⟨rfl, rfl⟩,
    run_process_empty_output (osWith (some ⟨3, []⟩)) (lit "arduino-cli version") ⟨3, []⟩ rfl rfl⟩


/-- C7, as amended: spawn failure always produces the text `ERROR: cannot run
command`, and a successful spawn produces it only when the child's output is
itself that text: when the child's output holds no NUL byte, `run_process`
returns the text if and only if `popen` failed or the child wrote exactly the
bytes of the text. -/
theorem run_process_sentinel_iff (os : OS) (cmd : Block)
    (h0 : ∀ p, os.popen (cstr cmd) = some p → (0 : Byte) ∉ p.content) :
    ∃ o, run_process os cmd = .ok o ∧
      (cstr o.value = bytes "ERROR: cannot run command" ↔
        (os.popen (cstr cmd) = none ∨
          ∃ p, os.popen (cstr cmd) = some p ∧ p.content = bytes "ERROR: cannot run command")) := by
  cases hp : os.popen (cstr cmd) with
  | none =>
    obtain ⟨o, hrun, hval, _⟩ := spawn_failure_outcome os cmd hp
    exact ⟨o, hrun, by simp [hval]⟩
  | some p =>
    obtain ⟨o, hrun, _, hval⟩ := nul_free_output_outcome os cmd p hp (h0 p hp)
    refine ⟨o, hrun, ?_⟩
    rw [hval]
    simp

/-- C7, an instance of the amended statement: a child that prints `done` and a
newline. -/
theorem run_process_sentinel_iff_witness :
    (∀ p, (osWith (some ⟨3, bytes "done\n"⟩)).popen (cstr (lit "arduino-cli version")) = some p →
      (0 : Byte) ∉ p.content) ∧
    ∃ o, run_process (osWith (some ⟨3, bytes "done\n"⟩)) (lit "arduino-cli version") = .ok o ∧
      (cstr o.value = bytes "ERROR: cannot run command" ↔
        ((osWith (some ⟨3, bytes "done\n"⟩)).popen (cstr (lit "arduino-cli version")) = none ∨
          ∃ p, (osWith (some ⟨3, bytes "done\n"⟩)).popen (cstr (lit "arduino-cli version")) =
            some p ∧ p.content = bytes "ERROR: cannot run command")) :=
  ⟨fun p hp => by cases hp; decide,
    run_process_sentinel_iff (osWith (some ⟨3, bytes "done\n"⟩)) (lit "arduino-cli version")
      (fun p hp => by cases hp; decide)⟩

/-- C7 as stated fails: the pipe opens, the child writes the 25 bytes `ERROR:
cannot run command` and closes its output, and `run_process` returns that very
text although the spawn succeeded. -/
theorem run_process_sentinel_from_child :
    (osWith (some ⟨3, bytes "ERROR: cannot run command"⟩)).popen
        (cstr (lit "arduino-cli version")) = some ⟨3, bytes "ERROR: cannot run command"⟩ ∧
    run_process (osWith (some ⟨3, bytes "ERROR: cannot run command"⟩))
        (lit "arduino-cli version") =
      .ok { trace := [.popen (bytes "arduino-cli version") (some 3), .calloc 1 1,
              .fgets 3 (some (bytes "ERROR: cannot run command")), .realloc 26,
              .fgets 3 none, .pclose 3]
            value := lit "ERROR: cannot run command" } ∧
    cstr (lit "ERROR: cannot run command") = bytes "ERROR: cannot run command" := by
  refine ⟨rfl, by rfl, by decide⟩

/-- C8: `run_process` always returns, and its trace holds exactly one `popen`,
the first call. When `popen` fails the trace is that call and the `strdup`: no
read and no close. When it succeeds the trace is `popen`, `calloc`, reads of the
stream and reallocations, the `fgets` that meets end of file, and last of all
one `pclose` of the stream `popen` returned, the only `pclose` of the trace. -/
theorem run_process_releases_pipe (os : OS) (cmd : Block) :
    ∃ o, run_process os cmd = .ok o ∧
      o.trace.countP Event.isPopen = 1 ∧
      o.trace.head? = some (.popen (cstr cmd) ((os.popen (cstr cmd)).map Pipe.handle)) ∧
      match os.popen (cstr cmd) with
      | none =>
        o.trace = [.popen (cstr cmd) none, .strdup (bytes "ERROR: cannot run command")] ∧
        o.trace.countP Event.isFgets = 0 ∧
        o.trace.countP Event.isPclose = 0
      | some p =>
        (∃ evs : List Event,
          o.trace = [.popen (cstr cmd) (some p.handle), .calloc 1 1] ++ evs ++
            [.fgets p.handle none, .pclose p.handle] ∧
          evs.all (Event.isRead p.handle) = true) ∧
        o.trace.countP Event.isPclose = 1 ∧
        o.trace.getLast? = some (.pclose p.handle) := by
  cases hp : os.popen (cstr cmd) with
  | none =>
    obtain ⟨o, hrun, _, _, htr, hfg, _, hpc⟩ := spawn_failure_outcome os cmd hp
    refine ⟨o, hrun, ?_, ?_, htr, hfg, hpc⟩
    · rw [htr]; rfl
    · rw [htr]; rfl
  | some p =>
    obtain ⟨evs, hrun, _, _, hreads⟩ := run_process_spec os cmd p hp
    obtain ⟨c1, c2, _⟩ := isRead_countP p.handle evs hreads
    refine ⟨_, hrun, ?_, rfl, ⟨evs, rfl, ?_⟩, ?_, ?_⟩
    · simp only [List.countP_append, c1]
      rfl
    · rw [List.all_eq_true]
      exact hreads
    · simp only [List.countP_append, c2]
      rfl
    · rw [List.getLast?_append_of_ne_nil _ (by simp)]
      rfl

/-- C9: the accumulator of `run_process` is the empty string when the loop is
entered, and in every state the loop reaches, one more turn of the loop leaves
an accumulator of which the one before is a prefix, so that its length does
not decrease. -/
theorem accumulator_grows (os : OS) (cmd : Block) (p : Pipe) (k : Nat) (st st' : LoopState)
    (hreach : stateAfter os.heap p.handle k (initState os cmd p) = some st)
    (hturn : loopIter os.heap p.handle st = .next st') :
    cstr (initState os cmd p).result = [] ∧
    cstr st.result <+: cstr st'.result ∧
    (cstr st.result).length ≤ (cstr st'.result).length := by
  have hwf : ∃ acc, st.result = acc ++ [0] ∧ (0 : Byte) ∉ acc :=
    stateAfter_terminated os.heap p.handle k (initState os cmd p) st ⟨[], rfl, by simp⟩ hreach
  obtain ⟨acc, hr, hacc⟩ := hwf
  have hpre : cstr st.result <+: cstr st'.result := by
    cases hs : st.stream with
    | nil =>
      rw [loopIter_eof os.heap p.handle st hs] at hturn
      cases hturn
    | cons c s =>
      rw [loopIter_read os.heap p.handle st c s acc hs hr hacc] at hturn
      injection hturn with hturn
      subst hturn
      have hacc' : (0 : Byte) ∉ acc ++ cstr (fgets_read 2047 (c :: s)).1 := by
        simp only [List.mem_append, not_or]
        exact ⟨hacc, nul_not_mem_cstr _⟩
      rw [hr]
      simp only []
      rw [cstr_terminated hacc [], cstr_terminated hacc' []]
      exact List.prefix_append _ _
  exact ⟨rfl, hpre, hpre.length_le⟩

/-- C9, an instance: a child that prints the lines `ab` and `cd`; after one turn
the accumulator holds the first line, after the next both. -/
theorem accumulator_grows_witness :
    (stateAfter (osWith (some ⟨3, bytes "ab\ncd\n"⟩)).heap (⟨3, bytes "ab\ncd\n"⟩ : Pipe).handle 1
        (initState (osWith (some ⟨3, bytes "ab\ncd\n"⟩)) (lit "arduino-cli version")
          ⟨3, bytes "ab\ncd\n"⟩) =
      some { stream := bytes "cd\n"
             buffer := bytes "ab\n" ++ [0] ++
               (stackArray (osWith (some ⟨3, bytes "ab\ncd\n"⟩)).stack 2048).drop 4
             result := bytes "ab\n" ++ [0]
             trace := [.popen (bytes "arduino-cli version") (some 3), .calloc 1 1,
               .fgets 3 (some (bytes "ab\n")), .realloc 4] } ∧
      loopIter (osWith (some ⟨3, bytes "ab\ncd\n"⟩)).heap (⟨3, bytes "ab\ncd\n"⟩ : Pipe).handle
        { stream := bytes "cd\n"
          buffer := bytes "ab\n" ++ [0] ++
            (stackArray (osWith (some ⟨3, bytes "ab\ncd\n"⟩)).stack 2048).drop 4
          result := bytes "ab\n" ++ [0]
          trace := [.popen (bytes "arduino-cli version") (some 3), .calloc 1 1,
            .fgets 3 (some (bytes "ab\n")), .realloc 4] } =
      .next { stream := []
              buffer := bytes "cd\n" ++ [0] ++
                (stackArray (osWith (some ⟨3, bytes "ab\ncd\n"⟩)).stack 2048).drop 4
              result := bytes "ab\ncd\n" ++ [0]
              trace := [.popen (bytes "arduino-cli version") (some 3), .calloc 1 1,
                .fgets 3 (some (bytes "ab\n")), .realloc 4,
                .fgets 3 (some (bytes "cd\n")), .realloc 7] }) ∧
    (cstr (initState (osWith (some ⟨3, bytes "ab\ncd\n"⟩)) (lit "arduino-cli version")
        ⟨3, bytes "ab\ncd\n"⟩).result = [] ∧
      cstr (bytes "ab\n" ++ [0]) <+: cstr (bytes "ab\ncd\n" ++ [0]) ∧
      (cstr (bytes "ab\n" ++ [0])).length ≤ (cstr (bytes "ab\ncd\n" ++ [0])).length) :=
  ⟨⟨by rfl, by rfl⟩,
    accumulator_grows (osWith (some ⟨3, bytes "ab\ncd\n"⟩)) (lit "arduino-cli version")
      ⟨3, bytes "ab\ncd\n"⟩ 1 _ _ (by rfl) (by rfl)⟩


end ArduinoCli
